import Mathlib

/-!
Verification of the MyKeyChain password manager (`mykeychain.py`).

The Python source is shallowly embedded: Python `str` values become `List Char`
(`Str` below), dictionaries become association lists, raised exceptions become
an error sum (`KeychainError`), and the interactive menu layer is modelled as a
caller supplying the already-read input strings, as the specification's scope
section prescribes.
-/

/-- Python strings are modelled as lists of characters. -/
abbrev Str := List Char

/-- The character set that `load_charset` writes and the module binds to the
global `CHARSET`: the decimal digits, the lowercase latin letters, the
uppercase latin letters, and then the 32 ASCII punctuation characters in
ASCII-code order (codes 33–47, 58–64, 91–96, 123–126), exactly the literal
`default_charset` of `mykeychain.py` line 63. -/
def CHARSET : Str :=
  ((List.range 10).map (fun i => Char.ofNat (48 + i))) ++
  ((List.range 26).map (fun i => Char.ofNat (97 + i))) ++
  ((List.range 26).map (fun i => Char.ofNat (65 + i))) ++
  ((List.range 15).map (fun i => Char.ofNat (33 + i))) ++
  ((List.range 7).map (fun i => Char.ofNat (58 + i))) ++
  ((List.range 6).map (fun i => Char.ofNat (91 + i))) ++
  ((List.range 4).map (fun i => Char.ofNat (123 + i)))

/-- The loop body of `caesar_cipher` (lines 100–105): a character inside
`CHARSET` moves by `shift` positions modulo the charset length (Python `%` on
a positive modulus, i.e. `Int.emod`, is never negative); any other character
passes through unchanged. -/
def caesarChar (shift : Int) (char : Char) : Char :=
  if char ∈ CHARSET then
    let idx : Int := CHARSET.indexOf char
    let new_idx : Int := (idx + shift) % (CHARSET.length : Int)
    CHARSET.getD new_idx.toNat char
  else char

/-- The transform `caesar_cipher(text, shift, decrypt)` (lines 78–106): empty input is
returned as is; otherwise each character is shifted by `direction * shift`
where `direction` is `-1` when decrypting and `1` when encrypting. -/
def caesar_cipher (text : Str) (shift : Int) (decrypt : Bool) : Str :=
  if text.isEmpty then text
  else
    let direction : Int := if decrypt then -1 else 1
    text.map (caesarChar (direction * shift))

/-- Concrete text with a Cyrillic (non-`CHARSET`) character at position 1. -/
def demo_text : Str := String.toList "aП"

/-- The exception classes of `mykeychain.py` (lines 7–33), as an error sum. -/
inductive KeychainError where
  | userExists
  | userNotFound
  | authenticationError
  | invalidInputError
  | resourceExists
  | resourceNotFound
  deriving DecidableEq, Repr

/-- One stored password record, the value
`{"encrypted": ..., "category": ...}` written by `add_password` (line 561). -/
structure Record where
  encrypted : Str
  category : Str
  deriving DecidableEq, Repr

/-- One account, the value stored under `users[login_name]`
(lines 165–169). -/
structure Account where
  master_password : Str
  passwords : List (Str × Record)
  custom_categories : List Str
  deriving DecidableEq, Repr

/-- The users mapping of `users.json`, keyed by login name.  Python dicts keep
insertion order, so an ordered association list is a faithful model. -/
abbrev Users := List (Str × Account)

/-- Python `str.strip()`: drop leading and trailing whitespace. -/
def strTrim (s : Str) : Str :=
  ((s.dropWhile Char.isWhitespace).reverse.dropWhile Char.isWhitespace).reverse

/-- Python `str.lower()`, modelled character-wise with `Char.toLower`
(identical to Python on the ASCII range, which is all the cipher's
`CHARSET` contains). -/
def toLowerStr (s : Str) : Str := s.map Char.toLower

/-- The function `get_categories()` (lines 349–370): the fixed list of ten built-in
categories, in source order.  The specification's Glossary renders these
strings in English, order-preserved: Social Networks, Banking/Finance,
Work/Business, Email, Education, Entertainment, Shopping, Health/Medicine,
Government Services, Other. -/
def get_categories : List Str :=
  [String.toList "Соцсети",
   String.toList "Банки/Финансы",
   String.toList "Работа/Бизнес",
   String.toList "Электронная почта",
   String.toList "Образование",
   String.toList "Развлечения",
   String.toList "Магазины/Покупки",
   String.toList "Здоровье/Медицина",
   String.toList "Государственные услуги",
   String.toList "Другое"]

/-- The operation `create_account()` (lines 137–172), with the interactive prompts modelled
as supplied input strings (the spec treats the menu layer as a caller that
hands over the read values).  The function is state-passing: it returns the
users mapping together with the outcome, and every error path returns the
mapping untouched, exactly as the Python exception leaves the dict. -/
def create_account (users : Users) (login_input master confirm : Str) :
    Users × Except KeychainError Str :=
  let login_name := strTrim login_input
  if login_name = [] then (users, Except.error KeychainError.invalidInputError)
  else if (users.lookup login_name).isSome then
    (users, Except.error KeychainError.userExists)
  else if master.length < 6 then
    (users, Except.error KeychainError.invalidInputError)
  else if master ≠ confirm then
    (users, Except.error KeychainError.invalidInputError)
  else
    (users ++ [(login_name,
      { master_password := master, passwords := [], custom_categories := [] })],
     Except.ok login_name)

/-- The body of the retry loop `for tries in range(3)` of `login()`
(lines 208–219): try the listed attempt indices in order, succeeding with the
index of the first attempt whose secret equals the stored one. -/
def login_fold (stored : Str) (attempts : Nat → Str) :
    List Nat → Except KeychainError Nat
  | [] => Except.error KeychainError.authenticationError
  | t :: ts =>
    if attempts t = stored then Except.ok t else login_fold stored attempts ts

/-- The authentication part of `login()` (lines 208–219): at most 3 attempts,
where `attempts t` is the secret the caller supplies on attempt `t`; `Except.ok t`
means success on the 0-based attempt `t`. -/
def login (stored : Str) (attempts : Nat → Str) : Except KeychainError Nat :=
  login_fold stored attempts (List.range 3)

/-- The operation `add_password` (lines 537–562) acting on the account
`users[login_name]`; the category (from `select_category`) and the plaintext
password (typed, or produced by the excluded generator when left empty) are
supplied arguments per the spec's scope section. -/
def add_password (account : Account) (resource_input category password : Str) :
    Account × Except KeychainError Unit :=
  let resource := strTrim resource_input
  if resource = [] then (account, Except.error KeychainError.invalidInputError)
  else if (account.passwords.lookup resource).isSome then
    (account, Except.error KeychainError.resourceExists)
  else
    let shift : Int := password.length
    let encrypted := caesar_cipher password shift false
    ({ account with passwords := account.passwords ++
        [(resource, { encrypted := encrypted, category := category })] },
     Except.ok ())

/-- The display-time decryption used by `show_all_passwords` (lines 663–664),
`show_passwords_by_category` (307–308) and `search_passwords` (343–344): the
shift is recomputed as the length of the stored encrypted string. -/
def decrypt_record (data : Record) : Str :=
  caesar_cipher data.encrypted (data.encrypted.length : Int) true

/-- The operation `update_password` (lines 564–585): re-encrypts the new password with
shift = its length and overwrites the record under the same resource key,
keeping the old record's category (line 583). -/
def update_password (account : Account) (resource_input password : Str) :
    Account × Except KeychainError Unit :=
  let resource := strTrim resource_input
  if resource = [] then (account, Except.error KeychainError.invalidInputError)
  else
    match account.passwords.lookup resource with
    | none => (account, Except.error KeychainError.resourceNotFound)
    | some old_data =>
      let shift : Int := password.length
      let encrypted := caesar_cipher password shift false
      ({ account with passwords := account.passwords.map (fun p =>
          if p.1 = resource then
            (resource, { encrypted := encrypted, category := old_data.category })
          else p) },
       Except.ok ())

/-- The operation `delete_password` (lines 587–605): after validation, the confirmation
input is stripped and lowercased; only the exact answer "y" deletes, any
other answer returns normally with the `false` ("cancelled") signal. -/
def delete_password (account : Account) (resource_input confirm_input : Str) :
    Account × Except KeychainError Bool :=
  let resource := strTrim resource_input
  if resource = [] then (account, Except.error KeychainError.invalidInputError)
  else if (account.passwords.lookup resource).isNone then
    (account, Except.error KeychainError.resourceNotFound)
  else
    let confirm := toLowerStr (strTrim confirm_input)
    if confirm = String.toList "y" then
      ({ account with passwords :=
          account.passwords.filter (fun p => p.1 != resource) },
       Except.ok true)
    else (account, Except.ok false)

/-- The sort key of `sorted(found, key=lambda x: x[0])` in `search_passwords`
(line 342): compare entries by resource name, lexicographically by code
point, exactly Python's `str` ordering. -/
def byResource (a b : Str × Record) : Prop := a.1 ≤ b.1

instance : DecidableRel byResource := fun a b =>
  inferInstanceAs (Decidable (a.1 ≤ b.1))

instance : IsTotal (Str × Record) byResource := ⟨fun a b => le_total a.1 b.1⟩

instance : IsTrans (Str × Record) byResource :=
  ⟨fun _ _ _ h1 h2 => le_trans h1 h2⟩

/-- The operation `search_passwords` (lines 312–347): the query is stripped and lowercased;
an empty query is rejected with a distinct signal (`none` — the early return
after "Пустой поисковый запрос", which is not an exception); otherwise the
records whose lowercased resource name contains the query are listed, sorted
by resource name, each as (resource, decrypted password, category). -/
def search_passwords (account : Account) (query_input : Str) :
    Option (List (Str × Str × Str)) :=
  let search_term := toLowerStr (strTrim query_input)
  if search_term = [] then none
  else
    let found := account.passwords.filter
      (fun p => decide (search_term <:+: toLowerStr p.1))
    some ((found.insertionSort byResource).map
      (fun p => (p.1, decrypt_record p.2, p.2.category)))

/-- A store that already contains an account under the login "bob". -/
def demo_users : Users :=
  [(String.toList "bob",
    { master_password := String.toList "secret1", passwords := [],
      custom_categories := [] })]

/-- The attempt stream of the spec's end-to-end scenario: two wrong secrets,
then the correct one. -/
def carol_attempts : Nat → Str := fun t =>
  if t = 0 then String.toList "wrong" else if t = 1 then String.toList "nope"
  else String.toList "password1"

/-- The record value that `add_password` (lines 559–561) and
`update_password` (lines 581–584) write: the password encrypted with
shift = its own character length, paired with the given category. -/
def stored_record (password category : Str) : Record :=
  { encrypted := caesar_cipher password (password.length : Int) false,
    category := category }

/-- An account with no records yet, used by the concrete witnesses. -/
def empty_account : Account :=
  { master_password := String.toList "password1", passwords := [],
    custom_categories := [] }

/-- A concrete account holding one record, for "Google.com", in category
"Соцсети" (Social Networks), used by the concrete witnesses. -/
def google_account : Account :=
  { master_password := String.toList "secret1",
    passwords := [(String.toList "Google.com",
      stored_record (String.toList "Sw0rd!") (String.toList "Соцсети"))],
    custom_categories := [] }

theorem CHARSET_length : CHARSET.length = 94 := by decide

theorem CHARSET_nodup : CHARSET.Nodup := by decide

theorem caesar_cipher_sample_shift :
    caesar_cipher (String.toList "abc") 3 false = String.toList "def" := by decide

theorem caesar_cipher_sample_neg_shift :
    caesar_cipher (String.toList "bcd") (-1) false = String.toList "abc" := by decide

theorem caesarChar_roundtrip (k : Int) (c : Char) :
    caesarChar (-k) (caesarChar k c) = c := by
  by_cases hc : c ∈ CHARSET
  · have hidxlt : CHARSET.indexOf c < CHARSET.length := List.indexOf_lt_length.mpr hc
    have hidx94 : CHARSET.indexOf c < 94 := CHARSET_length ▸ hidxlt
    have hcast : (CHARSET.length : Int) = 94 := by rw [CHARSET_length]; norm_num
    have hj0 : 0 ≤ ((CHARSET.indexOf c : Int) + k) % 94 :=
      Int.emod_nonneg _ (by norm_num)
    have hj94 : ((CHARSET.indexOf c : Int) + k) % 94 < 94 :=
      Int.emod_lt_of_pos _ (by norm_num)
    have hjc : ((((CHARSET.indexOf c : Int) + k) % 94).toNat : Int) =
        ((CHARSET.indexOf c : Int) + k) % 94 := Int.toNat_of_nonneg hj0
    have hjlt : (((CHARSET.indexOf c : Int) + k) % 94).toNat < CHARSET.length := by
      rw [CHARSET_length]; omega
    have h1 : caesarChar k c =
        CHARSET.get ⟨(((CHARSET.indexOf c : Int) + k) % 94).toNat, hjlt⟩ := by
      rw [caesarChar, if_pos hc]
      simp only [hcast]
      rw [List.getD_eq_getElem?_getD, List.getElem?_eq_getElem hjlt]
      rfl
    have hmem2 : CHARSET.get
        ⟨(((CHARSET.indexOf c : Int) + k) % 94).toNat, hjlt⟩ ∈ CHARSET :=
      List.get_mem CHARSET _ _
    have hidx2 : CHARSET.indexOf
        (CHARSET.get ⟨(((CHARSET.indexOf c : Int) + k) % 94).toNat, hjlt⟩) =
        (((CHARSET.indexOf c : Int) + k) % 94).toNat :=
      List.get_indexOf CHARSET_nodup _
    rw [h1, caesarChar, if_pos hmem2]
    simp only [hcast, hidx2]
    have harith : (((((CHARSET.indexOf c : Int) + k) % 94).toNat : Int) + -k) % 94 =
        (CHARSET.indexOf c : Int) := by
      rw [hjc]; omega
    rw [harith]
    have htn : ((CHARSET.indexOf c : Int)).toNat = CHARSET.indexOf c := Int.toNat_natCast _
    rw [htn, List.getD_eq_getElem?_getD, List.getElem?_eq_getElem hidxlt]
    exact List.getElem_indexOf hidxlt
  · have h1 : caesarChar k c = c := by rw [caesarChar, if_neg hc]
    rw [h1, caesarChar, if_neg hc]

theorem caesar_cipher_eq_map (text : Str) (shift : Int) (d : Bool) :
    caesar_cipher text shift d =
      text.map (caesarChar ((if d then -1 else 1) * shift)) := by
  rw [caesar_cipher]
  by_cases h : text.isEmpty
  · have hnil : text = [] := by
      cases text with
      | nil => rfl
      | cons a l => simp [List.isEmpty] at h
    subst hnil; simp
  · rw [if_neg h]

theorem caesar_encrypt_then_decrypt (s : Str) (k : Int) :
    caesar_cipher (caesar_cipher s k false) k true = s := by
  rw [caesar_cipher_eq_map, caesar_cipher_eq_map, List.map_map]
  have h : (caesarChar ((if true then (-1 : Int) else 1) * k)) ∘
      (caesarChar ((if false then (-1 : Int) else 1) * k)) = id := by
    funext c
    simp only [if_pos, if_neg, Function.comp_apply, id_eq, Bool.false_eq_true,
      ite_true, ite_false, neg_mul, one_mul]
    exact caesarChar_roundtrip k c
  rw [h, List.map_id]

/-- C1: for every string `s` and every integer `k` — including `k = 0`,
negative `k`, and `k` of arbitrary magnitude — decrypting an encryption with
the same shift returns the original text exactly:
`caesar_cipher (caesar_cipher s k false) k true = s`. -/
theorem caesar_cipher_roundtrip (s : Str) (k : Int) :
    caesar_cipher (caesar_cipher s k false) k true = s :=
  caesar_encrypt_then_decrypt s k

/-- The transform is character-for-character, hence length-preserving. -/
theorem caesar_cipher_length (text : Str) (shift : Int) (d : Bool) :
    (caesar_cipher text shift d).length = text.length := by
  rw [caesar_cipher_eq_map]
  exact List.length_map _ _

/-- C10: decryption is exactly encryption with the negated shift — for every
text `t` and every integer `s`,
`caesar_cipher t s true = caesar_cipher t (-s) false`. -/
theorem caesar_cipher_decrypt_eq_neg_encrypt (t : Str) (s : Int) :
    caesar_cipher t s true = caesar_cipher t (-s) false := by
  rw [caesar_cipher_eq_map, caesar_cipher_eq_map]
  simp [neg_mul, one_mul]

/-- C6: the output of the transform always has the same length as the input,
and every input character outside `CHARSET` appears unchanged at its original
position in the output. -/
theorem caesar_cipher_length_and_passthrough (text : Str) (shift : Int) (d : Bool) :
    (caesar_cipher text shift d).length = text.length ∧
    ∀ (i : Nat) (c : Char), text[i]? = some c → c ∉ CHARSET →
      (caesar_cipher text shift d)[i]? = some c := by
  rw [caesar_cipher_eq_map]
  refine ⟨List.length_map _ _, ?_⟩
  intro i c hic hnc
  rw [List.getElem?_map, hic]
  have hfix : caesarChar ((if d then -1 else 1) * shift) c = c := by
    rw [caesarChar, if_neg hnc]
  rw [Option.map_some', hfix]

theorem caesar_cipher_length_and_passthrough_witness :
    (caesar_cipher demo_text 7 false).length = demo_text.length ∧
    (caesar_cipher demo_text 7 false)[1]? = some 'П' :=
  ⟨(caesar_cipher_length_and_passthrough demo_text 7 false).1,
   (caesar_cipher_length_and_passthrough demo_text 7 false).2 1 'П' (by decide)
     (by decide)⟩

/-- C3: `get_categories` is the fixed ten-element built-in category list in
canonical order — the Glossary renders the same list in English, order
preserved (Social Networks, Banking/Finance, Work/Business, Email, Education,
Entertainment, Shopping, Health/Medicine, Government Services, Other) — and,
being a pure constant, every call yields an equal, independent value. -/
theorem get_categories_canonical :
    get_categories.length = 10 ∧
    get_categories =
      [String.toList "Соцсети", String.toList "Банки/Финансы",
       String.toList "Работа/Бизнес", String.toList "Электронная почта",
       String.toList "Образование", String.toList "Развлечения",
       String.toList "Магазины/Покупки", String.toList "Здоровье/Медицина",
       String.toList "Государственные услуги", String.toList "Другое"] ∧
    get_categories.Nodup :=
  ⟨rfl, rfl, by decide⟩

/-- C4 counterexample: on a store already containing "bob", `create_account`
does not fail with `InvalidInputError` as the claim states — it raises
`UserExistsError` (the spec's `AlreadyExists`). -/
theorem create_account_duplicate_counterexample :
    (create_account demo_users (String.toList "bob") (String.toList "secret99")
      (String.toList "secret99")).2 ≠
      Except.error KeychainError.invalidInputError := by
  have h : (create_account demo_users (String.toList "bob")
      (String.toList "secret99") (String.toList "secret99")).2 =
      Except.error KeychainError.userExists := by rfl
  rw [h]
  intro hcontra
  exact absurd (Except.error.inj hcontra) (by decide)

/-- C4 (amended): for every store already containing the (nonempty, trimmed)
login name, `create_account` fails with `UserExistsError` — the spec
taxonomy's `AlreadyExists`, not `InvalidInput` — and the store is returned
unchanged. -/
theorem create_account_duplicate_fails (users : Users)
    (login_input master confirm : Str)
    (hne : strTrim login_input ≠ [])
    (hmem : (users.lookup (strTrim login_input)).isSome) :
    create_account users login_input master confirm =
      (users, Except.error KeychainError.userExists) := by
  unfold create_account
  simp only [if_neg hne, if_pos hmem]

theorem create_account_duplicate_fails_witness :
    create_account demo_users (String.toList "bob") (String.toList "secret99")
      (String.toList "secret99") =
      (demo_users, Except.error KeychainError.userExists) :=
  create_account_duplicate_fails demo_users (String.toList "bob")
    (String.toList "secret99") (String.toList "secret99") (by decide) (by decide)

/-- C5: authentication succeeds exactly on the first of the at-most-3
supplied secrets that equals the stored master secret (so two wrong secrets
followed by the correct one succeed on the 3rd attempt); after 3 mismatches
it fails with `AuthenticationError`; and the outcome never depends on any
attempt beyond the first three, so no fourth attempt is consumed. -/
theorem login_three_attempts (stored : Str) (attempts : Nat → Str) :
    (∀ t : Nat, login stored attempts = Except.ok t ↔
      t < 3 ∧ attempts t = stored ∧ ∀ u : Nat, u < t → attempts u ≠ stored) ∧
    (login stored attempts = Except.error KeychainError.authenticationError ↔
      ∀ t : Nat, t < 3 → attempts t ≠ stored) ∧
    (∀ attempts2 : Nat → Str,
      (∀ t : Nat, t < 3 → attempts2 t = attempts t) →
      login stored attempts2 = login stored attempts) := by
  have hexp : ∀ b : Nat → Str, login stored b =
      (if b 0 = stored then Except.ok 0 else if b 1 = stored then Except.ok 1
       else if b 2 = stored then Except.ok 2
       else Except.error KeychainError.authenticationError) := fun b => rfl
  have part1 : ∀ t : Nat, login stored attempts = Except.ok t ↔
      t < 3 ∧ attempts t = stored ∧ ∀ u : Nat, u < t → attempts u ≠ stored := by
    intro t
    rw [hexp]
    by_cases h0 : attempts 0 = stored
    · rw [if_pos h0]
      constructor
      · intro ht
        obtain rfl : 0 = t := Except.ok.inj ht
        exact ⟨by norm_num, h0, fun u hu => absurd hu (Nat.not_lt_zero u)⟩
      · rintro ⟨ht3, hts, hfirst⟩
        rcases Nat.eq_zero_or_pos t with rfl | hpos
        · rfl
        · exact absurd h0 (hfirst 0 hpos)
    · rw [if_neg h0]
      by_cases h1 : attempts 1 = stored
      · rw [if_pos h1]
        constructor
        · intro ht
          obtain rfl : 1 = t := Except.ok.inj ht
          refine ⟨by norm_num, h1, ?_⟩
          intro u hu
          interval_cases u
          exact h0
        · rintro ⟨ht3, hts, hfirst⟩
          interval_cases t
          · exact absurd hts h0
          · rfl
          · exact absurd h1 (hfirst 1 (by norm_num))
      · rw [if_neg h1]
        by_cases h2 : attempts 2 = stored
        · rw [if_pos h2]
          constructor
          · intro ht
            obtain rfl : 2 = t := Except.ok.inj ht
            refine ⟨by norm_num, h2, ?_⟩
            intro u hu
            interval_cases u
            · exact h0
            · exact h1
          · rintro ⟨ht3, hts, hfirst⟩
            interval_cases t
            · exact absurd hts h0
            · exact absurd hts h1
            · rfl
        · rw [if_neg h2]
          constructor
          · intro ht
            exact Except.noConfusion ht
          · rintro ⟨ht3, hts, hfirst⟩
            interval_cases t
            · exact absurd hts h0
            · exact absurd hts h1
            · exact absurd hts h2
  have part2 : login stored attempts =
      Except.error KeychainError.authenticationError ↔
      ∀ t : Nat, t < 3 → attempts t ≠ stored := by
    rw [hexp]
    by_cases h0 : attempts 0 = stored
    · rw [if_pos h0]
      exact ⟨fun h => Except.noConfusion h,
        fun hall => absurd h0 (hall 0 (by norm_num))⟩
    · rw [if_neg h0]
      by_cases h1 : attempts 1 = stored
      · rw [if_pos h1]
        exact ⟨fun h => Except.noConfusion h,
          fun hall => absurd h1 (hall 1 (by norm_num))⟩
      · rw [if_neg h1]
        by_cases h2 : attempts 2 = stored
        · rw [if_pos h2]
          exact ⟨fun h => Except.noConfusion h,
            fun hall => absurd h2 (hall 2 (by norm_num))⟩
        · rw [if_neg h2]
          constructor
          · intro _ t ht
            interval_cases t
            · exact h0
            · exact h1
            · exact h2
          · intro _
            rfl
  refine ⟨part1, part2, ?_⟩
  intro a2 hagree
  rw [hexp, hexp, hagree 0 (by norm_num), hagree 1 (by norm_num),
    hagree 2 (by norm_num)]

theorem login_three_attempts_witness :
    login (String.toList "password1") carol_attempts = Except.ok 2 :=
  ((login_three_attempts (String.toList "password1") carol_attempts).1 2).mpr
    ⟨by norm_num, by decide,
     by decide⟩

theorem lookup_append_self {β : Type} (l : List (Str × β)) (k : Str) (v : β)
    (h : l.lookup k = none) : (l ++ [(k, v)]).lookup k = some v := by
  induction l with
  | nil => simp [List.lookup]
  | cons p ps ih =>
    obtain ⟨a, b⟩ := p
    rw [List.cons_append]
    by_cases hk : k = a
    · subst hk
      simp [List.lookup] at h
    · have hbeq : (k == a) = false := beq_eq_false_iff_ne.mpr hk
      simp only [List.lookup, hbeq] at h ⊢
      exact ih h

theorem lookup_replace_self (l : List (Str × Record)) (k : Str) (v : Record)
    (hmem : (l.lookup k).isSome = true) :
    (l.map (fun p => if p.1 = k then (k, v) else p)).lookup k = some v := by
  induction l with
  | nil => simp at hmem
  | cons p ps ih =>
    obtain ⟨a, b⟩ := p
    rw [List.map_cons]
    by_cases hak : a = k
    · subst hak
      rw [show (if (a, b).1 = a then (a, v) else (a, b)) = (a, v) from if_pos rfl]
      rw [List.lookup_cons, beq_self_eq_true]
    · rw [show (if (a, b).1 = k then (k, v) else (a, b)) = (a, b) from if_neg hak]
      have hbeq : (k == a) = false := beq_eq_false_iff_ne.mpr (fun h => hak h.symm)
      rw [List.lookup_cons, hbeq]
      rw [List.lookup_cons, hbeq] at hmem
      exact ih hmem

theorem lookup_replace_other (l : List (Str × Record)) (k other : Str)
    (v : Record) (hne : other ≠ k) :
    (l.map (fun p => if p.1 = k then (k, v) else p)).lookup other =
      l.lookup other := by
  induction l with
  | nil => rfl
  | cons p ps ih =>
    obtain ⟨a, b⟩ := p
    rw [List.map_cons]
    by_cases hak : a = k
    · subst hak
      rw [show (if (a, b).1 = a then (a, v) else (a, b)) = (a, v) from if_pos rfl]
      have hbeq : (other == a) = false := beq_eq_false_iff_ne.mpr hne
      rw [List.lookup_cons, hbeq, List.lookup_cons, hbeq]
      exact ih
    · rw [show (if (a, b).1 = k then (k, v) else (a, b)) = (a, b) from if_neg hak]
      rw [List.lookup_cons, List.lookup_cons]
      cases hoa : other == a
      · exact ih
      · rfl

/-- C2: for every plaintext password (Cyrillic and other non-`CHARSET`
characters included), `add_password` stores exactly
`caesar_cipher password (length password) false` under the resource, and the
display-time decryption — shift recomputed as the length of the stored
encrypted string — returns exactly the original plaintext. -/
theorem add_password_roundtrip (account : Account)
    (resource_input category password : Str)
    (hne : strTrim resource_input ≠ [])
    (habs : account.passwords.lookup (strTrim resource_input) = none) :
    ∃ account' : Account,
      add_password account resource_input category password =
        (account', Except.ok ()) ∧
      account'.passwords.lookup (strTrim resource_input) =
        some (stored_record password category) ∧
      ∀ data : Record,
        account'.passwords.lookup (strTrim resource_input) = some data →
        decrypt_record data = password := by
  have hns : ¬ (account.passwords.lookup (strTrim resource_input)).isSome = true := by
    rw [habs]
    simp
  have hlk : (account.passwords ++ [(strTrim resource_input,
      stored_record password category)]).lookup (strTrim resource_input) =
      some (stored_record password category) :=
    lookup_append_self _ _ _ habs
  refine ⟨{ account with passwords := account.passwords ++
      [(strTrim resource_input, stored_record password category)] }, ?_, hlk, ?_⟩
  · simp only [add_password, stored_record, if_neg hne, if_neg hns]
  · intro data hdata
    rw [hlk] at hdata
    have hdd : data = stored_record password category :=
      (Option.some.inj hdata).symm
    subst hdd
    show caesar_cipher (caesar_cipher password (password.length : Int) false)
      ((caesar_cipher password (password.length : Int) false).length : Int) true =
      password
    rw [caesar_cipher_length]
    exact caesar_encrypt_then_decrypt password (password.length : Int)

theorem add_password_roundtrip_witness :
    ∃ account' : Account,
      add_password empty_account (String.toList "site.com")
        (String.toList "Другое") (String.toList "паРоль1!") =
        (account', Except.ok ()) ∧
      account'.passwords.lookup (strTrim (String.toList "site.com")) =
        some (stored_record (String.toList "паРоль1!") (String.toList "Другое")) ∧
      ∀ data : Record,
        account'.passwords.lookup (strTrim (String.toList "site.com")) =
          some data →
        decrypt_record data = String.toList "паРоль1!" :=
  add_password_roundtrip empty_account (String.toList "site.com")
    (String.toList "Другое") (String.toList "паРоль1!") (by decide) (by decide)

/-- C7: updating the password of an existing resource keeps that record's
category exactly as it was before the call, replaces only its encrypted
password, and leaves every other record — and the rest of the account —
unchanged. -/
theorem update_password_preserves (account : Account)
    (resource_input password : Str) (old_data : Record)
    (hne : strTrim resource_input ≠ [])
    (hold : account.passwords.lookup (strTrim resource_input) = some old_data) :
    ∃ account' : Account,
      update_password account resource_input password =
        (account', Except.ok ()) ∧
      account'.passwords.lookup (strTrim resource_input) =
        some (stored_record password old_data.category) ∧
      (∀ other : Str, other ≠ strTrim resource_input →
        account'.passwords.lookup other = account.passwords.lookup other) ∧
      account'.master_password = account.master_password ∧
      account'.custom_categories = account.custom_categories := by
  have hmem : (account.passwords.lookup (strTrim resource_input)).isSome = true := by
    rw [hold]
    rfl
  refine ⟨{ account with passwords := account.passwords.map (fun p =>
      if p.1 = strTrim resource_input then
        (strTrim resource_input, stored_record password old_data.category)
      else p) }, ?_, ?_, ?_, rfl, rfl⟩
  · simp only [update_password, stored_record, if_neg hne, hold]
  · exact lookup_replace_self account.passwords (strTrim resource_input) _ hmem
  · intro other hother
    exact lookup_replace_other account.passwords (strTrim resource_input) other _
      hother

theorem update_password_preserves_witness :
    ∃ account' : Account,
      update_password google_account (String.toList "Google.com")
        (String.toList "NewPass1") = (account', Except.ok ()) ∧
      account'.passwords.lookup (strTrim (String.toList "Google.com")) =
        some (stored_record (String.toList "NewPass1")
          (String.toList "Соцсети")) ∧
      (∀ other : Str, other ≠ strTrim (String.toList "Google.com") →
        account'.passwords.lookup other =
          google_account.passwords.lookup other) ∧
      account'.master_password = google_account.master_password ∧
      account'.custom_categories = google_account.custom_categories :=
  update_password_preserves google_account (String.toList "Google.com")
    (String.toList "NewPass1")
    (stored_record (String.toList "Sw0rd!") (String.toList "Соцсети"))
    (by decide) (by decide)

/-- C8: deleting an existing resource with any confirmation answer other
than "y" performs no mutation at all — the account is returned exactly as it
was — and yields the normal "cancelled" signal `Except.ok false`, not an
error. -/
theorem delete_password_cancelled (account : Account)
    (resource_input confirm_input : Str)
    (hne : strTrim resource_input ≠ [])
    (hmem : (account.passwords.lookup (strTrim resource_input)).isSome = true)
    (hconf : toLowerStr (strTrim confirm_input) ≠ String.toList "y") :
    delete_password account resource_input confirm_input =
      (account, Except.ok false) := by
  have hnn : ¬ (account.passwords.lookup (strTrim resource_input)).isNone = true := by
    obtain ⟨x, hx⟩ := Option.isSome_iff_exists.mp hmem
    rw [hx]
    simp
  simp only [delete_password, if_neg hne, if_neg hnn, if_neg hconf]

theorem delete_password_cancelled_witness :
    delete_password google_account (String.toList "Google.com")
      (String.toList "n") = (google_account, Except.ok false) :=
  delete_password_cancelled google_account (String.toList "Google.com")
    (String.toList "n") (by decide) (by decide) (by decide)

/-- C9: `search_passwords` rejects an empty (post-strip) query with the
distinct `none` signal and no results — not a crash and not an error; for a
non-empty query it returns exactly the records whose resource name contains
the query case-insensitively, each with its decrypted password and category,
sorted ascending by resource name. -/
theorem search_passwords_spec (account : Account) (query_input : Str) :
    (toLowerStr (strTrim query_input) = [] →
      search_passwords account query_input = none) ∧
    (toLowerStr (strTrim query_input) ≠ [] →
      ∃ l : List (Str × Str × Str),
        search_passwords account query_input = some l ∧
        (∀ r pwd cat : Str, (r, pwd, cat) ∈ l ↔
          ∃ data : Record, (r, data) ∈ account.passwords ∧
            (toLowerStr (strTrim query_input) <:+: toLowerStr r) ∧
            pwd = decrypt_record data ∧ cat = data.category) ∧
        List.Pairwise (fun x y : Str × Str × Str => x.1 ≤ y.1) l) := by
  constructor
  · intro h
    simp only [search_passwords, h]
    rw [if_pos trivial]
  · intro h
    refine ⟨((account.passwords.filter
        (fun q => decide (toLowerStr (strTrim query_input) <:+:
          toLowerStr q.1))).insertionSort byResource).map
        (fun p => (p.1, decrypt_record p.2, p.2.category)), ?_, ?_, ?_⟩
    · simp only [search_passwords, if_neg h]
    · intro r pwd cat
      constructor
      · intro hmemr
        obtain ⟨p, hp, hfp⟩ := List.mem_map.mp hmemr
        have hp2 : p ∈ account.passwords.filter
            (fun q => decide (toLowerStr (strTrim query_input) <:+: toLowerStr q.1)) :=
          (List.perm_insertionSort byResource _).mem_iff.mp hp
        obtain ⟨hpmem, hpred⟩ := List.mem_filter.mp hp2
        obtain ⟨r2, data⟩ := p
        simp only [Prod.mk.injEq] at hfp
        obtain ⟨rfl, rfl, rfl⟩ := hfp
        exact ⟨data, hpmem, of_decide_eq_true hpred, rfl, rfl⟩
      · rintro ⟨data, hdmem, hinf, rfl, rfl⟩
        apply List.mem_map.mpr
        refine ⟨(r, data), ?_, rfl⟩
        apply (List.perm_insertionSort byResource _).mem_iff.mpr
        exact List.mem_filter.mpr ⟨hdmem, decide_eq_true hinf⟩
    · rw [List.pairwise_map]
      exact (List.sorted_insertionSort byResource _).imp (fun h => h)

theorem search_passwords_spec_witness :
    search_passwords google_account [] = none ∧
    (∃ l : List (Str × Str × Str),
      search_passwords google_account (String.toList "goo") = some l ∧
      (∀ r pwd cat : Str, (r, pwd, cat) ∈ l ↔
        ∃ data : Record, (r, data) ∈ google_account.passwords ∧
          (toLowerStr (strTrim (String.toList "goo")) <:+: toLowerStr r) ∧
          pwd = decrypt_record data ∧ cat = data.category) ∧
      List.Pairwise (fun x y : Str × Str × Str => x.1 ≤ y.1) l) :=
  ⟨(search_passwords_spec google_account []).1 (by decide),
   (search_passwords_spec google_account (String.toList "goo")).2 (by decide)⟩
